import Mathlib

/-!
Shallow embedding of the mesh-gradient core (`lib/mesh-gradient.ts`) and
proofs of the specification's testable properties.

Modelling conventions, used throughout:
* JavaScript numbers are modelled as exact rationals (`ℚ`); the source
  performs only field operations, `Math.floor`/`ceil`/`round`, comparisons
  and two square roots, so every quantity except an explicit distance is
  rational.  `Math.sqrt` appears only inside comparisons of the shape
  `sqrt s < c` or `sqrt s > sqrt t`; those are embedded by the equivalent
  squared comparison (justified by `sqrt_lt_sqrt_iff_of_pos` style lemmas
  proved below where it matters).
* The pixel buffer (a `CanvasRenderingContext2D`) is an external
  collaborator (spec section 4.1); it is modelled as a total function
  `Ctx : ℤ → ℤ → RGB` giving the pixel at integer coordinates, which is
  exactly the interface `getImageData(x, y, 1, 1)` provides.
* Colors travel through the source as strings `rgb(r, g, b)` produced by
  `sampleColor` and re-parsed by `parseRGB`; the spec (section 3,
  AttributedVertex) declares the representation irrelevant, so vertices
  carry the parsed `RGB` value directly.
-/

namespace MeshGradient

/-- JavaScript `Math.round`: round half toward positive infinity. -/
def jsRound (x : ℚ) : ℤ := ⌊x + 1/2⌋

/-- An RGB color with integer channels (`interface RGB`). -/
structure RGB where
  r : ℤ
  g : ℤ
  b : ℤ
deriving DecidableEq, Repr

/-- Squared Euclidean color distance.  The source's `colorDistance` is
`Math.sqrt` of this; all uses of `colorDistance` in the verified code occur
inside monotone comparisons and are embedded via this square. -/
def colorDistSq (a b : RGB) : ℤ :=
  (a.r - b.r) * (a.r - b.r) + (a.g - b.g) * (a.g - b.g) + (a.b - b.b) * (a.b - b.b)

/-- Source `getLuminance`: `0.299*r + 0.587*g + 0.114*b`. -/
def getLuminance (c : RGB) : ℚ := 0.299 * c.r + 0.587 * c.g + 0.114 * c.b

/-- Source `blendColors`: component-wise mean of a list of colors, rounded; black
for the empty list. -/
def blendColors (colors : List RGB) : RGB :=
  if colors.length = 0 then ⟨0, 0, 0⟩
  else
    let n : ℚ := colors.length
    { r := jsRound (((colors.map RGB.r).sum : ℚ) / n)
      g := jsRound (((colors.map RGB.g).sum : ℚ) / n)
      b := jsRound (((colors.map RGB.b).sum : ℚ) / n) }

/-- Source `clamp(v, lo, hi) = Math.max(lo, Math.min(hi, v))`. -/
def clamp (v lo hi : ℚ) : ℚ := max lo (min hi v)

/-- The pixel source: color of the pixel at integer coordinates
(collaborator interface of spec section 4.1). -/
def Ctx : Type := ℤ → ℤ → RGB

/-- Source `sampleRGB`: point sample at floored coordinates. -/
def sampleRGB (ctx : Ctx) (x y : ℚ) : RGB := ctx ⌊x⌋ ⌊y⌋

/-- Source `sampleRegionAvg`: blend of a 3x3 grid of samples spaced `0.5*radius`
around `(x, y)`, clamped to the image. -/
def sampleRegionAvg (ctx : Ctx) (x y radius w h : ℚ) : RGB :=
  blendColors
    (([-1, 0, 1] : List ℚ).flatMap fun dy =>
      ([-1, 0, 1] : List ℚ).map fun dx =>
        sampleRGB ctx (clamp (x + dx * radius * 0.5) 0 (w - 1))
          (clamp (y + dy * radius * 0.5) 0 (h - 1)))

-- ============ Mood mapping ============

/-- Source `interface MoodSettings`. -/
structure MoodSettings where
  pathSmoothing : ℚ
  overlapAmount : ℚ
  shapeOpacity : ℚ
  adaptiveSensitivity : ℚ
  minShapeScale : ℚ
  mergeThreshold : ℚ
  gradientConsistency : ℚ
  baseGradientOpacity : ℚ
deriving DecidableEq, Repr

/-- Source `moodToSettings`: map the mood slider (0..100) to the eight internal
settings. -/
def moodToSettings (mood : ℚ) : MoodSettings :=
  let t := mood / 100
  { pathSmoothing := ((max 1 ⌊t * 4⌋ : ℤ) : ℚ)
    overlapAmount := 1.06 + t * 0.12
    shapeOpacity := 0.97 - t * 0.3
    adaptiveSensitivity := 0.25 + t * 0.45
    minShapeScale := 0.8 + t * 0.4
    mergeThreshold := 0.15 + t * 0.35
    gradientConsistency := 0.35 + t * 0.55
    baseGradientOpacity := 0.25 + t * 0.55 }

/-- Source `moodToMinDistance`: Poisson disk base spacing with a 24 px floor. -/
def moodToMinDistance (mood width height : ℚ) : ℚ :=
  let minSize := min width height
  let factor := 0.035 + (mood / 100) * 0.11
  let px := minSize * factor
  max px 24

/-- C10: for every mood value and every width and height,
`moodToMinDistance(mood, width, height)` returns a value that is at least
24 pixels. -/
theorem moodToMinDistance_ge_24 (mood width height : ℚ) :
    24 ≤ moodToMinDistance mood width height :=
  le_max_right _ _

/-- C4: at mood 0 and mood 100 every field of `moodToSettings` lies within
its documented range (`pathSmoothing` 1..4, `overlapAmount` 1..1.2,
`shapeOpacity` 0.6..0.98, `adaptiveSensitivity` 0.25..0.7, `minShapeScale`
0.8..1.2, `mergeThreshold` 0.15..0.5, `gradientConsistency` 0.35..0.9,
`baseGradientOpacity` 0..1), and every field is monotonic in the mood:
all fields are non-decreasing except `shapeOpacity`, which is
non-increasing. -/
theorem moodToSettings_ranges_mono (m m' : ℚ) (hmm : m ≤ m') :
    (1 ≤ (moodToSettings 0).pathSmoothing ∧ (moodToSettings 0).pathSmoothing ≤ 4 ∧
     1 ≤ (moodToSettings 100).pathSmoothing ∧ (moodToSettings 100).pathSmoothing ≤ 4 ∧
     1 ≤ (moodToSettings 0).overlapAmount ∧ (moodToSettings 0).overlapAmount ≤ 1.2 ∧
     1 ≤ (moodToSettings 100).overlapAmount ∧ (moodToSettings 100).overlapAmount ≤ 1.2 ∧
     0.6 ≤ (moodToSettings 0).shapeOpacity ∧ (moodToSettings 0).shapeOpacity ≤ 0.98 ∧
     0.6 ≤ (moodToSettings 100).shapeOpacity ∧ (moodToSettings 100).shapeOpacity ≤ 0.98 ∧
     0.25 ≤ (moodToSettings 0).adaptiveSensitivity ∧
     (moodToSettings 0).adaptiveSensitivity ≤ 0.7 ∧
     0.25 ≤ (moodToSettings 100).adaptiveSensitivity ∧
     (moodToSettings 100).adaptiveSensitivity ≤ 0.7 ∧
     0.8 ≤ (moodToSettings 0).minShapeScale ∧ (moodToSettings 0).minShapeScale ≤ 1.2 ∧
     0.8 ≤ (moodToSettings 100).minShapeScale ∧ (moodToSettings 100).minShapeScale ≤ 1.2 ∧
     0.15 ≤ (moodToSettings 0).mergeThreshold ∧ (moodToSettings 0).mergeThreshold ≤ 0.5 ∧
     0.15 ≤ (moodToSettings 100).mergeThreshold ∧ (moodToSettings 100).mergeThreshold ≤ 0.5 ∧
     0.35 ≤ (moodToSettings 0).gradientConsistency ∧
     (moodToSettings 0).gradientConsistency ≤ 0.9 ∧
     0.35 ≤ (moodToSettings 100).gradientConsistency ∧
     (moodToSettings 100).gradientConsistency ≤ 0.9 ∧
     0 ≤ (moodToSettings 0).baseGradientOpacity ∧ (moodToSettings 0).baseGradientOpacity ≤ 1 ∧
     0 ≤ (moodToSettings 100).baseGradientOpacity ∧
     (moodToSettings 100).baseGradientOpacity ≤ 1) ∧
    ((moodToSettings m).pathSmoothing ≤ (moodToSettings m').pathSmoothing ∧
     (moodToSettings m).overlapAmount ≤ (moodToSettings m').overlapAmount ∧
     (moodToSettings m').shapeOpacity ≤ (moodToSettings m).shapeOpacity ∧
     (moodToSettings m).adaptiveSensitivity ≤ (moodToSettings m').adaptiveSensitivity ∧
     (moodToSettings m).minShapeScale ≤ (moodToSettings m').minShapeScale ∧
     (moodToSettings m).mergeThreshold ≤ (moodToSettings m').mergeThreshold ∧
     (moodToSettings m).gradientConsistency ≤ (moodToSettings m').gradientConsistency ∧
     (moodToSettings m).baseGradientOpacity ≤ (moodToSettings m').baseGradientOpacity) := by
  constructor
  · norm_num [moodToSettings]
  · have ht : m / 100 ≤ m' / 100 := by linarith
    refine ⟨?_, ?_, ?_, ?_, ?_, ?_, ?_, ?_⟩
    · simp only [moodToSettings]
      exact_mod_cast max_le_max le_rfl (Int.floor_le_floor (by linarith))
    all_goals simp only [moodToSettings]; nlinarith

/-- Witness for C4 at the concrete endpoints mood 0 and mood 100. -/
theorem moodToSettings_ranges_mono_witness :
    (0 : ℚ) ≤ 100 ∧
    ((moodToSettings 0).pathSmoothing ≤ (moodToSettings 100).pathSmoothing ∧
     (moodToSettings 0).overlapAmount ≤ (moodToSettings 100).overlapAmount ∧
     (moodToSettings 100).shapeOpacity ≤ (moodToSettings 0).shapeOpacity ∧
     (moodToSettings 0).adaptiveSensitivity ≤ (moodToSettings 100).adaptiveSensitivity ∧
     (moodToSettings 0).minShapeScale ≤ (moodToSettings 100).minShapeScale ∧
     (moodToSettings 0).mergeThreshold ≤ (moodToSettings 100).mergeThreshold ∧
     (moodToSettings 0).gradientConsistency ≤ (moodToSettings 100).gradientConsistency ∧
     (moodToSettings 0).baseGradientOpacity ≤ (moodToSettings 100).baseGradientOpacity) :=
  ⟨by norm_num, (moodToSettings_ranges_mono 0 100 (by norm_num)).2⟩

-- ============ Triangles ============

/-- A plane point `{x, y}` (spec Point2D). -/
structure P2 where
  x : ℚ
  y : ℚ
deriving DecidableEq, Repr

/-- A triangulation vertex: `interface Point` — a plane point plus its
sampled color.  Per spec section 3 (AttributedVertex) the color's string
vs value representation is irrelevant; the parsed `RGB` value is carried. -/
structure Vertex where
  x : ℚ
  y : ℚ
  color : RGB
deriving DecidableEq, Repr

/-- Source `interface Triangle`: three vertices plus derived centroid and area.
The `colorVariance` field is omitted: it is a mean of Euclidean distances
(irrational in general) and no verified property reads it. -/
structure Triangle where
  p0 : Vertex
  p1 : Vertex
  p2 : Vertex
  centroid : P2
  area : ℚ
deriving DecidableEq, Repr

-- ============ Micro-triangle culling ============

/-- Source `filterSmallTriangles`: discard triangles whose area is below
`0.28 *` the median area (the `|| 1` of the source replaces a zero median
by 1 before scaling). -/
def filterSmallTriangles (tris : List Triangle) : List Triangle :=
  if tris.length = 0 then tris
  else
    let areas := (tris.map Triangle.area).insertionSort (· ≤ ·)
    let median0 := areas.getD (areas.length / 2) 0
    let median := if median0 = 0 then 1 else median0
    let cut := median * 0.28
    tris.filter fun t => cut ≤ t.area

/-- The median triangle area as the source computes it: the entry at index
`⌊n/2⌋` of the ascending-sorted list of areas (before the `|| 1` default). -/
def medianArea (tris : List Triangle) : ℚ :=
  ((tris.map Triangle.area).insertionSort (· ≤ ·)).getD (tris.length / 2) 0

/-- C5: for every non-empty triangle list, after micro-triangle filtering
no surviving triangle has area strictly below `0.28 *` the median of all
triangle areas computed before filtering. -/
theorem filterSmallTriangles_area_bound (tris : List Triangle) (hne : tris ≠ [])
    (t : Triangle) (hmem : t ∈ filterSmallTriangles tris) :
    0.28 * medianArea tris ≤ t.area := by
  have hlen : ¬ tris.length = 0 := by simpa using hne
  unfold filterSmallTriangles at hmem
  rw [if_neg hlen] at hmem
  have hcut :
      (if ((tris.map Triangle.area).insertionSort (· ≤ ·)).getD
            (((tris.map Triangle.area).insertionSort (· ≤ ·)).length / 2) 0 = 0 then (1 : ℚ)
       else ((tris.map Triangle.area).insertionSort (· ≤ ·)).getD
            (((tris.map Triangle.area).insertionSort (· ≤ ·)).length / 2) 0) * 0.28 ≤ t.area := by
    have := (List.mem_filter.mp hmem).2
    simpa using of_decide_eq_true this
  have hmedian : medianArea tris =
      ((tris.map Triangle.area).insertionSort (· ≤ ·)).getD
        (((tris.map Triangle.area).insertionSort (· ≤ ·)).length / 2) 0 := by
    unfold medianArea
    congr 1
    rw [List.length_insertionSort, List.length_map]
  rw [hmedian]
  set md := ((tris.map Triangle.area).insertionSort (· ≤ ·)).getD
      (((tris.map Triangle.area).insertionSort (· ≤ ·)).length / 2) 0 with hmd
  by_cases h0 : md = 0
  · rw [if_pos h0] at hcut
    rw [h0]
    linarith
  · rw [if_neg h0] at hcut
    linarith

unseal Rat.add Rat.mul Rat.sub Rat.inv Rat.ofScientific in
/-- Witness for C5 on a concrete one-triangle list. -/
theorem filterSmallTriangles_area_bound_witness :
    ([⟨⟨0, 0, ⟨0, 0, 0⟩⟩, ⟨1, 0, ⟨0, 0, 0⟩⟩, ⟨0, 1, ⟨0, 0, 0⟩⟩, ⟨1/3, 1/3⟩, 1/2⟩] :
        List Triangle) ≠ [] ∧
    (⟨⟨0, 0, ⟨0, 0, 0⟩⟩, ⟨1, 0, ⟨0, 0, 0⟩⟩, ⟨0, 1, ⟨0, 0, 0⟩⟩, ⟨1/3, 1/3⟩, 1/2⟩ : Triangle) ∈
      filterSmallTriangles
        [⟨⟨0, 0, ⟨0, 0, 0⟩⟩, ⟨1, 0, ⟨0, 0, 0⟩⟩, ⟨0, 1, ⟨0, 0, 0⟩⟩, ⟨1/3, 1/3⟩, 1/2⟩] ∧
    0.28 * medianArea
        [⟨⟨0, 0, ⟨0, 0, 0⟩⟩, ⟨1, 0, ⟨0, 0, 0⟩⟩, ⟨0, 1, ⟨0, 0, 0⟩⟩, ⟨1/3, 1/3⟩, 1/2⟩] ≤
      (⟨⟨0, 0, ⟨0, 0, 0⟩⟩, ⟨1, 0, ⟨0, 0, 0⟩⟩, ⟨0, 1, ⟨0, 0, 0⟩⟩, ⟨1/3, 1/3⟩, 1/2⟩ :
        Triangle).area :=
  ⟨by decide, by decide,
   filterSmallTriangles_area_bound _ (by decide) _ (by decide)⟩

-- ============ Path smoothing ============

/-- One Chaikin corner-cutting round: the body of the `for it` loop of
`chaikinSmooth`, which for each index `i` pushes the two cut points of the
cyclic edge from `r[i]` to `r[(i + 1) % r.length]`. -/
def chaikinStep (pts : List P2) : List P2 :=
  (List.range pts.length).flatMap fun i =>
    let a := pts.getD i ⟨0, 0⟩
    let b := pts.getD ((i + 1) % pts.length) ⟨0, 0⟩
    [⟨0.75 * a.x + 0.25 * b.x, 0.75 * a.y + 0.25 * b.y⟩,
     ⟨0.25 * a.x + 0.75 * b.x, 0.25 * a.y + 0.75 * b.y⟩]

/-- Source `chaikinSmooth`: the identity for `iters <= 0`, otherwise `iters`
corner-cutting rounds. -/
def chaikinSmooth (pts : List P2) (iters : ℤ) : List P2 :=
  if iters ≤ 0 then pts else chaikinStep^[iters.toNat] pts

theorem length_flatMap_pair {α : Type} (f g : ℕ → α) (n : ℕ) :
    ((List.range n).flatMap fun j => [f j, g j]).length = 2 * n := by
  induction n with
  | zero => rfl
  | succ m ih =>
    rw [List.range_succ, List.flatMap_append, List.length_append, ih]
    simp [Nat.mul_succ]

theorem getD_flatMap_pair {α : Type} (f g : ℕ → α) (n i : ℕ) (h : i < n) (d : α) :
    ((List.range n).flatMap fun j => [f j, g j]).getD (2 * i) d = f i ∧
    ((List.range n).flatMap fun j => [f j, g j]).getD (2 * i + 1) d = g i := by
  induction n with
  | zero => omega
  | succ m ih =>
    rw [List.range_succ, List.flatMap_append]
    rcases Nat.lt_succ_iff_lt_or_eq.mp h with hlt | heq
    · have hl1 : 2 * i < ((List.range m).flatMap fun j => [f j, g j]).length := by
        rw [length_flatMap_pair]; omega
      have hl2 : 2 * i + 1 < ((List.range m).flatMap fun j => [f j, g j]).length := by
        rw [length_flatMap_pair]; omega
      rw [List.getD_eq_getElem?_getD, List.getD_eq_getElem?_getD,
        List.getElem?_append_left hl1, List.getElem?_append_left hl2]
      rw [← List.getD_eq_getElem?_getD, ← List.getD_eq_getElem?_getD]
      exact ih hlt
    · have hlen : ((List.range m).flatMap fun j => [f j, g j]).length = 2 * i := by
        rw [length_flatMap_pair, heq]
      constructor
      · rw [List.getD_eq_getElem?_getD, List.getElem?_append_right hlen.le, hlen]
        simp [heq]
      · rw [List.getD_eq_getElem?_getD,
          List.getElem?_append_right (by omega : _ ≤ 2 * i + 1), hlen]
        simp [heq]

theorem chaikinStep_length (pts : List P2) :
    (chaikinStep pts).length = 2 * pts.length := by
  unfold chaikinStep
  exact length_flatMap_pair _ _ _

theorem chaikinStep_iterate_length (k : ℕ) (pts : List P2) :
    (chaikinStep^[k] pts).length = pts.length * 2 ^ k := by
  induction k with
  | zero => simp
  | succ m ih =>
    rw [Function.iterate_succ_apply', chaikinStep_length, ih]
    ring

/-- C6: `chaikinSmooth` with 0 iterations returns the input unchanged; with
`k > 0` iterations it performs `k` corner-cutting rounds and returns exactly
`inputCount * 2 ^ k` points, where one round maps position `2*i` (resp.
`2*i + 1`) of its output to `0.75*a + 0.25*b` (resp. `0.25*a + 0.75*b`) for
the cyclic input edge `(a, b) = (pts[i], pts[(i+1) % n])`. -/
theorem chaikinSmooth_spec (pts : List P2) (k : ℕ) (hk : 0 < k) :
    chaikinSmooth pts 0 = pts ∧
    chaikinSmooth pts (k : ℤ) = chaikinStep^[k] pts ∧
    (chaikinSmooth pts (k : ℤ)).length = pts.length * 2 ^ k ∧
    ∀ i, i < pts.length →
      (chaikinStep pts).getD (2 * i) ⟨0, 0⟩ =
        ⟨0.75 * (pts.getD i ⟨0, 0⟩).x + 0.25 * (pts.getD ((i + 1) % pts.length) ⟨0, 0⟩).x,
         0.75 * (pts.getD i ⟨0, 0⟩).y + 0.25 * (pts.getD ((i + 1) % pts.length) ⟨0, 0⟩).y⟩ ∧
      (chaikinStep pts).getD (2 * i + 1) ⟨0, 0⟩ =
        ⟨0.25 * (pts.getD i ⟨0, 0⟩).x + 0.75 * (pts.getD ((i + 1) % pts.length) ⟨0, 0⟩).x,
         0.25 * (pts.getD i ⟨0, 0⟩).y + 0.75 * (pts.getD ((i + 1) % pts.length) ⟨0, 0⟩).y⟩ := by
  refine ⟨by simp [chaikinSmooth], ?_, ?_, ?_⟩
  · unfold chaikinSmooth
    rw [if_neg (by exact_mod_cast Nat.not_le.mpr hk)]
    norm_num
  · unfold chaikinSmooth
    rw [if_neg (by exact_mod_cast Nat.not_le.mpr hk), Int.toNat_natCast]
    exact chaikinStep_iterate_length k pts
  · intro i hi
    exact getD_flatMap_pair _ _ _ _ hi _

unseal Rat.add Rat.mul Rat.sub Rat.inv Rat.ofScientific in
/-- Witness for C6 on a concrete triangle contour and one iteration. -/
theorem chaikinSmooth_spec_witness :
    0 < 1 ∧
    chaikinSmooth [⟨0, 0⟩, ⟨1, 0⟩, ⟨0, 1⟩] 0 = [⟨0, 0⟩, ⟨1, 0⟩, ⟨0, 1⟩] ∧
    (chaikinSmooth [⟨0, 0⟩, ⟨1, 0⟩, ⟨0, 1⟩] ((1 : ℕ) : ℤ)).length = 3 * 2 ^ 1 :=
  ⟨Nat.one_pos, (chaikinSmooth_spec [⟨0, 0⟩, ⟨1, 0⟩, ⟨0, 1⟩] 1 Nat.one_pos).1,
   (chaikinSmooth_spec [⟨0, 0⟩, ⟨1, 0⟩, ⟨0, 1⟩] 1 Nat.one_pos).2.2.1⟩

-- ============ Shape classification ============

/-- The rounded key of one coordinate, as produced by `toFixed(1)`:
the integer nearest `10 * x` (ties away from zero, per ECMA `toFixed`,
which formats `|x|` and prepends the sign) together with a flag recording
a negative zero (`toFixed` prints `-0.0` for small negative values, which
is a distinct map key from `0.0`). -/
def jsFixed1 (x : ℚ) : ℤ × Bool :=
  let n : ℤ := if x < 0 then -⌊-(10 * x) + 1/2⌋ else ⌊10 * x + 1/2⌋
  (n, decide (x < 0) && decide (n = 0))

/-- The rounded key of a point: both coordinates through `toFixed(1)`. -/
def ptKey (x y : ℚ) : (ℤ × Bool) × (ℤ × Bool) := (jsFixed1 x, jsFixed1 y)

/-- A strict total order on point keys.  The source orders the two
formatted endpoint strings by string comparison merely to pick a canonical
orientation for the unordered edge; the edge map depends only on key
equality, and two edges collide under the source's string key iff they have
the same unordered pair of `ptKey`s, so any fixed total order produces the
identical map. -/
def pkLt (a b : (ℤ × Bool) × (ℤ × Bool)) : Bool :=
  if a.1.1 ≠ b.1.1 then a.1.1 < b.1.1
  else if a.1.2 ≠ b.1.2 then !a.1.2 && b.1.2
  else if a.2.1 ≠ b.2.1 then a.2.1 < b.2.1
  else !a.2.2 && b.2.2

/-- Source `edgeKey`: canonical unordered key of the edge between two points. -/
def edgeKey (x1 y1 x2 y2 : ℚ) :
    ((ℤ × Bool) × (ℤ × Bool)) × ((ℤ × Bool) × (ℤ × Bool)) :=
  let a := ptKey x1 y1
  let b := ptKey x2 y2
  if pkLt a b then (a, b) else (b, a)

/-- The three edge keys of a triangle, in the source's push order. -/
def triEdges (t : Triangle) :
    List (((ℤ × Bool) × (ℤ × Bool)) × ((ℤ × Bool) × (ℤ × Bool))) :=
  [edgeKey t.p0.x t.p0.y t.p1.x t.p1.y,
   edgeKey t.p1.x t.p1.y t.p2.x t.p2.y,
   edgeKey t.p2.x t.p2.y t.p0.x t.p0.y]

/-- The operation `edgeMap.get(e).push(i)` on an insertion-ordered association list,
creating the entry if absent (mirrors the `Map` in `classifyShapes`). -/
def pushEdge (m : List ((((ℤ × Bool) × (ℤ × Bool)) × ((ℤ × Bool) × (ℤ × Bool))) × List ℕ))
    (e : (((ℤ × Bool) × (ℤ × Bool)) × ((ℤ × Bool) × (ℤ × Bool)))) (i : ℕ) :
    List ((((ℤ × Bool) × (ℤ × Bool)) × ((ℤ × Bool) × (ℤ × Bool))) × List ℕ) :=
  match m with
  | [] => [(e, [i])]
  | (k, l) :: rest => if k = e then (k, l ++ [i]) :: rest else (k, l) :: pushEdge rest e i

/-- The full edge map of a triangle list (first loop of `classifyShapes`). -/
def buildEdgeMap (tris : List Triangle) :
    List ((((ℤ × Bool) × (ℤ × Bool)) × ((ℤ × Bool) × (ℤ × Bool))) × List ℕ) :=
  tris.enum.foldl (fun m it => (triEdges it.2).foldl (fun m2 e => pushEdge m2 e it.1) m) []

/-- The neighbor list of triangle `i`: for every edge-map entry holding
exactly two triangle indices, each of the two gains the other as a
neighbor (second loop of `classifyShapes`), in map iteration order. -/
def neighborsOf
    (m : List ((((ℤ × Bool) × (ℤ × Bool)) × ((ℤ × Bool) × (ℤ × Bool))) × List ℕ))
    (i : ℕ) : List ℕ :=
  m.flatMap fun kl =>
    match kl.2 with
    | [a, b] => (if a = i then [b] else []) ++ (if b = i then [a] else [])
    | _ => []

/-- A placeholder triangle for (never-taken) out-of-range index reads. -/
def dummyTri : Triangle := ⟨⟨0, 0, ⟨0, 0, 0⟩⟩, ⟨0, 0, ⟨0, 0, 0⟩⟩, ⟨0, 0, ⟨0, 0, 0⟩⟩, ⟨0, 0⟩, 0⟩

/-- The blended (mean) vertex color of a triangle. -/
def avgColor (t : Triangle) : RGB := blendColors [t.p0.color, t.p1.color, t.p2.color]

/-- The similarity test `colorDistance(a, b) / 441.67 < threshold` of
`classifyShapes`, embedded by squaring: `colorDistance` is the square root
of `colorDistSq`, and `441.67 = 44167 / 100`, so the comparison holds iff
the threshold is positive and `colorDistSq * 100^2 < 44167^2 * threshold^2`
(equivalence proved in `similarB_iff_sqrt`). -/
def similarB (a b : RGB) (threshold : ℚ) : Bool :=
  decide (0 < threshold ∧ ((colorDistSq a b : ℚ)) * 10000 < 44167 ^ 2 * threshold ^ 2)

/-- The test `similarB` agrees with the source's square-root comparison. -/
theorem similarB_iff_sqrt (a b : RGB) (threshold : ℚ) :
    similarB a b threshold = true ↔
      Real.sqrt ((colorDistSq a b : ℤ) : ℝ) / 441.67 < (threshold : ℝ) := by
  have hnn : (0 : ℝ) ≤ ((colorDistSq a b : ℤ) : ℝ) := by
    have h0 : (0 : ℤ) ≤ colorDistSq a b := by
      unfold colorDistSq
      nlinarith [mul_self_nonneg (a.r - b.r), mul_self_nonneg (a.g - b.g),
        mul_self_nonneg (a.b - b.b)]
    exact_mod_cast h0
  have hc : (0 : ℝ) < 441.67 := by norm_num
  rw [div_lt_iff₀ hc]
  unfold similarB
  rw [decide_eq_true_iff]
  constructor
  · rintro ⟨hpos, hlt⟩
    have hpos' : (0 : ℝ) < (threshold : ℝ) * 441.67 := by
      have : (0 : ℝ) < (threshold : ℝ) := by exact_mod_cast hpos
      nlinarith
    rw [show ((441.67 : ℝ)) = 44167 / 100 by norm_num]
    refine (Real.sqrt_lt' (by positivity)).mpr ?_
    have hlt' : ((colorDistSq a b : ℤ) : ℝ) * 10000 < 44167 ^ 2 * (threshold : ℝ) ^ 2 := by
      exact_mod_cast hlt
    nlinarith
  · intro hlt
    have hth : (0 : ℝ) < (threshold : ℝ) := by
      by_contra hle
      push_neg at hle
      have h1 : (threshold : ℝ) * 441.67 ≤ 0 := by nlinarith
      have h2 : (0 : ℝ) ≤ Real.sqrt ((colorDistSq a b : ℤ) : ℝ) := Real.sqrt_nonneg _
      linarith
    have hs : Real.sqrt ((colorDistSq a b : ℤ) : ℝ) < 44167 / 100 * (threshold : ℝ) := by
      rw [show ((44167 : ℝ) / 100) = 441.67 by norm_num]
      linarith [hlt]
    have hsq : ((colorDistSq a b : ℤ) : ℝ) < (44167 / 100 * (threshold : ℝ)) ^ 2 := by
      have := (Real.sqrt_lt' (by positivity : (0 : ℝ) < 44167 / 100 * (threshold : ℝ))).mp hs
      exact this
    constructor
    · exact_mod_cast hth
    · have : ((colorDistSq a b : ℤ) : ℝ) * 10000 < 44167 ^ 2 * (threshold : ℝ) ^ 2 := by
        nlinarith
      exact_mod_cast this

/-- The mean triangle area (`avgArea` in `classifyShapes`). -/
def avgArea (tris : List Triangle) : ℚ := (tris.map Triangle.area).sum / tris.length

/-- The similar-neighbor count of triangle `i` (with vertex-blend `avgC`):
neighbors whose blended color is within the threshold. -/
def similarCount (tris : List Triangle)
    (m : List ((((ℤ × Bool) × (ℤ × Bool)) × ((ℤ × Bool) × (ℤ × Bool))) × List ℕ))
    (threshold : ℚ) (i : ℕ) (t : Triangle) : ℕ :=
  ((neighborsOf m i).filter fun ni =>
      similarB (avgColor t) (avgColor (tris.getD ni dummyTri)) threshold).length

/-- The branch condition of `classifyShapes`: primary iff the area is at
least `0.55 *` the mean area and at least 2 neighbors are color-similar. -/
def isPrimaryB (tris : List Triangle) (threshold : ℚ) (i : ℕ) (t : Triangle) : Bool :=
  decide (avgArea tris * 0.55 ≤ t.area ∧
    2 ≤ similarCount tris (buildEdgeMap tris) threshold i t)

/-- Source `classifyShapes`: one pass over the triangles, pushing each into
`primary` or `detail` according to `isPrimaryB`. -/
def classifyShapes (tris : List Triangle) (threshold : ℚ) :
    List Triangle × List Triangle :=
  tris.enum.foldl
    (fun pd it =>
      if isPrimaryB tris threshold it.1 it.2
      then (pd.1 ++ [it.2], pd.2)
      else (pd.1, pd.2 ++ [it.2]))
    ([], [])

theorem foldl_partition {α β : Type} (p : α → Bool) (f : α → β) (l : List α)
    (acc1 acc2 : List β) :
    l.foldl (fun pd it => if p it then (pd.1 ++ [f it], pd.2) else (pd.1, pd.2 ++ [f it]))
        (acc1, acc2) =
      (acc1 ++ (l.filter p).map f, acc2 ++ (l.filter fun a => !(p a)).map f) := by
  induction l generalizing acc1 acc2 with
  | nil => simp
  | cons hd tl ih =>
    simp only [List.foldl_cons, List.filter_cons]
    by_cases hp : p hd
    · simp [hp, ih]
    · simp [hp, ih]

theorem length_filter_add_not {α : Type} (p : α → Bool) (l : List α) :
    (l.filter p).length + (l.filter fun a => !(p a)).length = l.length := by
  induction l with
  | nil => rfl
  | cons hd tl ih =>
    simp only [List.filter_cons]
    by_cases hp : p hd
    · simp only [hp, Bool.not_true, if_true, Bool.false_eq_true, if_false, List.length_cons]
      omega
    · simp only [hp, Bool.not_false, Bool.false_eq_true, if_false, if_true, List.length_cons]
      omega

/-- C2: `classifyShapes` places each input triangle in exactly one of the
two output lists (`primary` is the sublist of triangles satisfying the
classification rule, `detail` the sublist of those violating it, so the
lengths sum to the input length), and a triangle at position `i` goes to
`primary` iff its area is at least `0.55 *` the mean area and at least 2
entries of its edge-sharing neighbor list have a blended vertex color
whose distance to the triangle's own blended color, divided by 441.67, is
below the threshold. -/
theorem classifyShapes_spec (tris : List Triangle) (threshold : ℚ) :
    (classifyShapes tris threshold).1.length + (classifyShapes tris threshold).2.length =
        tris.length ∧
    (classifyShapes tris threshold).1 =
      (tris.enum.filter fun it =>
        decide (avgArea tris * 0.55 ≤ it.2.area ∧
          2 ≤ similarCount tris (buildEdgeMap tris) threshold it.1 it.2)).map Prod.snd ∧
    (classifyShapes tris threshold).2 =
      (tris.enum.filter fun it =>
        !decide (avgArea tris * 0.55 ≤ it.2.area ∧
          2 ≤ similarCount tris (buildEdgeMap tris) threshold it.1 it.2)).map Prod.snd := by
  have hfold := foldl_partition (fun it : ℕ × Triangle => isPrimaryB tris threshold it.1 it.2)
    Prod.snd tris.enum [] []
  have hcs : classifyShapes tris threshold =
      ((tris.enum.filter fun it => isPrimaryB tris threshold it.1 it.2).map Prod.snd,
       (tris.enum.filter fun it => !(isPrimaryB tris threshold it.1 it.2)).map Prod.snd) := by
    unfold classifyShapes
    rw [hfold]
    simp
  refine ⟨?_, ?_, ?_⟩
  · rw [hcs]
    simp only [List.length_map]
    rw [length_filter_add_not]
    exact List.enum_length
  · rw [hcs]
    rfl
  · rw [hcs]
    rfl

-- ============ Base gradient analysis ============

/-- Source `interface DominantColor`. -/
structure DominantColor where
  color : RGB
  position : P2
  weight : ℚ
deriving DecidableEq, Repr

/-- Source `interface BaseGradient`: the grid samples plus the normalized
direction `(x1, y1, x2, y2)`. -/
structure BaseGradient where
  colors : List DominantColor
  x1 : ℚ
  y1 : ℚ
  x2 : ℚ
  y2 : ℚ
deriving DecidableEq, Repr

/-- One cell sample of `analyzeBaseGradient`: the region average at the
cell center `((gx + 0.5) * cellW, (gy + 0.5) * cellH)` with radius
`min(cellW, cellH) * 0.3` and weight 1. -/
def gridSample (ctx : Ctx) (w h : ℚ) (gx gy : ℕ) : DominantColor :=
  let cx := ((gx : ℚ) + 0.5) * (w / 6)
  let cy := ((gy : ℚ) + 0.5) * (h / 6)
  { color := sampleRegionAvg ctx cx cy (min (w / 6) (h / 6) * 0.3) w h
    position := ⟨cx, cy⟩
    weight := 1 }

/-- The 6x6 grid of region-averaged samples of `analyzeBaseGradient`, in
row-major (`gy` outer, `gx` inner) order. -/
def gridSamples (ctx : Ctx) (w h : ℚ) : List DominantColor :=
  (List.range 6).flatMap fun gy =>
    (List.range 6).map fun gx => gridSample ctx w h gx gy

/-- All index pairs `i < j` of a list in the order the source's double
loop visits them. -/
def upperPairs {α : Type} : List α → List (α × α)
  | [] => []
  | x :: xs => (xs.map fun y => (x, y)) ++ upperPairs xs

/-- The body of the max-distance double loop of `analyzeBaseGradient`:
on a strictly larger color distance, record it and orient the pair from
the lower-luminance to the higher-luminance sample.  The source compares
the square-root distances and starts from `maxDist = 0`; both sides are
nonnegative, so comparing `colorDistSq` is equivalent. -/
def scanStep (st : ℚ × DominantColor × DominantColor) (ab : DominantColor × DominantColor) :
    ℚ × DominantColor × DominantColor :=
  if st.1 < ((colorDistSq ab.1.color ab.2.color : ℤ) : ℚ) then
    (((colorDistSq ab.1.color ab.2.color : ℤ) : ℚ),
     if getLuminance ab.1.color < getLuminance ab.2.color
     then (ab.1, ab.2) else (ab.2, ab.1))
  else st

/-- The max-distance scan over all `i < j` sample pairs. -/
def bestPair (s0 : DominantColor) (pairs : List (DominantColor × DominantColor)) :
    ℚ × DominantColor × DominantColor :=
  pairs.foldl scanStep (0, s0, s0)

/-- Source `analyzeBaseGradient`: the 36 grid samples plus the direction from the
darker to the brighter member of a maximum-distance sample pair, with both
endpoints normalized by the image size. -/
def analyzeBaseGradient (ctx : Ctx) (w h : ℚ) : BaseGradient :=
  let samples := gridSamples ctx w h
  let s0 := samples.getD 0 ⟨⟨0, 0, 0⟩, ⟨0, 0⟩, 1⟩
  let ft := (bestPair s0 (upperPairs samples)).2
  { colors := samples
    x1 := ft.1.position.x / w
    y1 := ft.1.position.y / h
    x2 := ft.2.position.x / w
    y2 := ft.2.position.y / h }

theorem colorDistSq_nonneg (a b : RGB) : 0 ≤ colorDistSq a b := by
  unfold colorDistSq
  nlinarith [mul_self_nonneg (a.r - b.r), mul_self_nonneg (a.g - b.g),
    mul_self_nonneg (a.b - b.b)]

theorem colorDistSq_comm (a b : RGB) : colorDistSq a b = colorDistSq b a := by
  unfold colorDistSq
  ring

/-- The loop invariant of the max-distance scan, established by folding:
the state always holds a nonnegative running maximum realized by its
luminance-ordered sample pair, the maximum only grows, and after the fold
it dominates every processed pair's distance. -/
theorem scan_foldl_inv (P : DominantColor → Prop)
    (pairs : List (DominantColor × DominantColor))
    (hl : ∀ ab ∈ pairs, P ab.1 ∧ P ab.2) :
    ∀ st : ℚ × DominantColor × DominantColor,
      ((colorDistSq st.2.1.color st.2.2.color : ℤ) : ℚ) = st.1 → 0 ≤ st.1 →
      getLuminance st.2.1.color ≤ getLuminance st.2.2.color →
      P st.2.1 → P st.2.2 →
      (((colorDistSq (pairs.foldl scanStep st).2.1.color
            (pairs.foldl scanStep st).2.2.color : ℤ) : ℚ) = (pairs.foldl scanStep st).1 ∧
       0 ≤ (pairs.foldl scanStep st).1 ∧
       getLuminance (pairs.foldl scanStep st).2.1.color ≤
         getLuminance (pairs.foldl scanStep st).2.2.color ∧
       P (pairs.foldl scanStep st).2.1 ∧ P (pairs.foldl scanStep st).2.2 ∧
       st.1 ≤ (pairs.foldl scanStep st).1 ∧
       ∀ ab ∈ pairs,
         ((colorDistSq ab.1.color ab.2.color : ℤ) : ℚ) ≤ (pairs.foldl scanStep st).1) := by
  induction pairs with
  | nil =>
    intro st h1 h2 h3 h4 h5
    exact ⟨h1, h2, h3, h4, h5, le_refl _, by intro ab hab; cases hab⟩
  | cons ab l ih =>
    intro st h1 h2 h3 h4 h5
    have habP : P ab.1 ∧ P ab.2 := hl ab (List.mem_cons_self ab l)
    have hl' : ∀ x ∈ l, P x.1 ∧ P x.2 := fun x hx => hl x (List.mem_cons_of_mem ab hx)
    rw [List.foldl_cons]
    have key : ((colorDistSq (scanStep st ab).2.1.color (scanStep st ab).2.2.color : ℤ) : ℚ) =
          (scanStep st ab).1 ∧
        0 ≤ (scanStep st ab).1 ∧
        getLuminance (scanStep st ab).2.1.color ≤ getLuminance (scanStep st ab).2.2.color ∧
        P (scanStep st ab).2.1 ∧ P (scanStep st ab).2.2 ∧
        st.1 ≤ (scanStep st ab).1 ∧
        ((colorDistSq ab.1.color ab.2.color : ℤ) : ℚ) ≤ (scanStep st ab).1 := by
      have hdnn : (0 : ℚ) ≤ ((colorDistSq ab.1.color ab.2.color : ℤ) : ℚ) := by
        exact_mod_cast colorDistSq_nonneg ab.1.color ab.2.color
      unfold scanStep
      by_cases hgt : st.1 < ((colorDistSq ab.1.color ab.2.color : ℤ) : ℚ)
      · rw [if_pos hgt]
        by_cases hlum : getLuminance ab.1.color < getLuminance ab.2.color
        · rw [if_pos hlum]
          exact ⟨rfl, hdnn, le_of_lt hlum, habP.1, habP.2, le_of_lt hgt, le_refl _⟩
        · rw [if_neg hlum]
          refine ⟨?_, hdnn, le_of_not_lt hlum, habP.2, habP.1, le_of_lt hgt, le_refl _⟩
          show ((colorDistSq ab.2.color ab.1.color : ℤ) : ℚ) =
            ((colorDistSq ab.1.color ab.2.color : ℤ) : ℚ)
          exact_mod_cast colorDistSq_comm ab.2.color ab.1.color
      · rw [if_neg hgt]
        exact ⟨h1, h2, h3, h4, h5, le_refl _, le_of_not_lt hgt⟩
    obtain ⟨k1, k2, k3, k4, k5, k6, k7⟩ :=
      ih hl' (scanStep st ab) key.1 key.2.1 key.2.2.1 key.2.2.2.1 key.2.2.2.2.1
    refine ⟨k1, k2, k3, k4, k5, le_trans key.2.2.2.2.2.1 k6, ?_⟩
    intro x hx
    rcases List.mem_cons.mp hx with hx0 | hxl
    · rw [hx0]
      exact le_trans key.2.2.2.2.2.2 k6
    · exact k7 x hxl

theorem upperPairs_mem {α : Type} (l : List α) :
    ∀ ab ∈ upperPairs l, ab.1 ∈ l ∧ ab.2 ∈ l := by
  induction l with
  | nil => intro ab hab; cases hab
  | cons x xs ih =>
    intro ab hab
    simp only [upperPairs] at hab
    rcases List.mem_append.mp hab with hm | hm
    · obtain ⟨y, hy, hye⟩ := List.mem_map.mp hm
      rw [← hye]
      exact ⟨List.mem_cons_self x xs, List.mem_cons_of_mem x hy⟩
    · obtain ⟨h1m, h2m⟩ := ih ab hm
      exact ⟨List.mem_cons_of_mem x h1m, List.mem_cons_of_mem x h2m⟩

theorem pair_mem_upperPairs {α : Type} (l : List α) (a b : α) (ha : a ∈ l) (hb : b ∈ l) :
    a = b ∨ (a, b) ∈ upperPairs l ∨ (b, a) ∈ upperPairs l := by
  induction l with
  | nil => cases ha
  | cons x xs ih =>
    rcases List.mem_cons.mp ha with hax | hax
    · rcases List.mem_cons.mp hb with hbx | hbx
      · left
        rw [hax, hbx]
      · right; left
        simp only [upperPairs]
        rw [hax]
        exact List.mem_append.mpr (Or.inl (List.mem_map.mpr ⟨b, hbx, rfl⟩))
    · rcases List.mem_cons.mp hb with hbx | hbx
      · right; right
        simp only [upperPairs]
        rw [hbx]
        exact List.mem_append.mpr (Or.inl (List.mem_map.mpr ⟨a, hax, rfl⟩))
      · rcases ih hax hbx with hc | hc | hc
        · exact Or.inl hc
        · right; left
          simp only [upperPairs]
          exact List.mem_append.mpr (Or.inr hc)
        · right; right
          simp only [upperPairs]
          exact List.mem_append.mpr (Or.inr hc)

theorem getD_zero_mem {α : Type} (l : List α) (d : α) (h : l ≠ []) : l.getD 0 d ∈ l := by
  cases l with
  | nil => exact absurd rfl h
  | cons x xs => exact List.mem_cons_self x xs

theorem gridSamples_length (ctx : Ctx) (w h : ℚ) : (gridSamples ctx w h).length = 36 := rfl

theorem gridSamples_position (ctx : Ctx) (w h : ℚ) :
    ∀ s ∈ gridSamples ctx w h, ∃ gx gy : ℕ, gx < 6 ∧ gy < 6 ∧
      s.position = ⟨((gx : ℚ) + 0.5) * (w / 6), ((gy : ℚ) + 0.5) * (h / 6)⟩ := by
  intro s hs
  unfold gridSamples at hs
  rw [List.mem_flatMap] at hs
  obtain ⟨gy, hgy, hs2⟩ := hs
  rw [List.mem_map] at hs2
  obtain ⟨gx, hgx, hse⟩ := hs2
  refine ⟨gx, gy, List.mem_range.mp hgx, List.mem_range.mp hgy, ?_⟩
  rw [← hse]
  rfl

/-- The properties of the max-distance scan over an arbitrary sample list:
both chosen samples belong to the list, they are luminance-ordered, and
their color distance dominates every pair of list elements. -/
theorem bestPair_spec (S : List DominantColor) (d0 : DominantColor) (hne : S ≠ []) :
    (bestPair (S.getD 0 d0) (upperPairs S)).2.1 ∈ S ∧
    (bestPair (S.getD 0 d0) (upperPairs S)).2.2 ∈ S ∧
    getLuminance (bestPair (S.getD 0 d0) (upperPairs S)).2.1.color ≤
      getLuminance (bestPair (S.getD 0 d0) (upperPairs S)).2.2.color ∧
    ∀ a ∈ S, ∀ b ∈ S,
      colorDistSq a.color b.color ≤
        colorDistSq (bestPair (S.getD 0 d0) (upperPairs S)).2.1.color
          (bestPair (S.getD 0 d0) (upperPairs S)).2.2.color := by
  have hs0mem : S.getD 0 d0 ∈ S := getD_zero_mem S d0 hne
  obtain ⟨k1, k2, k3, k4, k5, _, k7⟩ :=
    scan_foldl_inv (· ∈ S) (upperPairs S) (upperPairs_mem S)
      (0, S.getD 0 d0, S.getD 0 d0)
      (by simp [colorDistSq]) (le_refl 0) (le_refl _) hs0mem hs0mem
  refine ⟨k4, k5, k3, ?_⟩
  intro a ha b hb
  have hq : ((colorDistSq a.color b.color : ℤ) : ℚ) ≤
      ((upperPairs S).foldl scanStep (0, S.getD 0 d0, S.getD 0 d0)).1 := by
    rcases pair_mem_upperPairs S a b ha hb with hc | hc | hc
    · rw [hc]
      have hz : colorDistSq b.color b.color = 0 := by simp [colorDistSq]
      rw [hz]
      exact_mod_cast k2
    · exact k7 (a, b) hc
    · have hba := k7 (b, a) hc
      calc ((colorDistSq a.color b.color : ℤ) : ℚ)
          = ((colorDistSq b.color a.color : ℤ) : ℚ) := by
            exact_mod_cast colorDistSq_comm a.color b.color
        _ ≤ _ := hba
  rw [← k1] at hq
  exact_mod_cast hq

/-- C9: `analyzeBaseGradient` emits all 36 region-averaged grid samples,
and its direction runs from a sample `f` to a sample `t` such that the
pair `(f, t)` has maximum color distance among all sample pairs, `f` has
the lower luminance, the endpoints are the two sample positions divided by
the image dimensions, and all four emitted coordinates lie in `[0, 1]`. -/
theorem analyzeBaseGradient_spec (ctx : Ctx) (w h : ℚ) (hw : 0 < w) (hh : 0 < h) :
    (analyzeBaseGradient ctx w h).colors = gridSamples ctx w h ∧
    (analyzeBaseGradient ctx w h).colors.length = 36 ∧
    ∃ f t, f ∈ (analyzeBaseGradient ctx w h).colors ∧
      t ∈ (analyzeBaseGradient ctx w h).colors ∧
      (∀ a ∈ (analyzeBaseGradient ctx w h).colors,
        ∀ b ∈ (analyzeBaseGradient ctx w h).colors,
          colorDistSq a.color b.color ≤ colorDistSq f.color t.color) ∧
      getLuminance f.color ≤ getLuminance t.color ∧
      (analyzeBaseGradient ctx w h).x1 = f.position.x / w ∧
      (analyzeBaseGradient ctx w h).y1 = f.position.y / h ∧
      (analyzeBaseGradient ctx w h).x2 = t.position.x / w ∧
      (analyzeBaseGradient ctx w h).y2 = t.position.y / h ∧
      0 ≤ (analyzeBaseGradient ctx w h).x1 ∧ (analyzeBaseGradient ctx w h).x1 ≤ 1 ∧
      0 ≤ (analyzeBaseGradient ctx w h).y1 ∧ (analyzeBaseGradient ctx w h).y1 ≤ 1 ∧
      0 ≤ (analyzeBaseGradient ctx w h).x2 ∧ (analyzeBaseGradient ctx w h).x2 ≤ 1 ∧
      0 ≤ (analyzeBaseGradient ctx w h).y2 ∧ (analyzeBaseGradient ctx w h).y2 ≤ 1 := by
  have hcolors : (analyzeBaseGradient ctx w h).colors = gridSamples ctx w h := rfl
  have hbounds : ∀ s ∈ gridSamples ctx w h,
      0 ≤ s.position.x / w ∧ s.position.x / w ≤ 1 ∧
      0 ≤ s.position.y / h ∧ s.position.y / h ≤ 1 := by
    intro s hs
    obtain ⟨gx, gy, hgx, hgy, hpos⟩ := gridSamples_position ctx w h s hs
    have hx : s.position.x = ((gx : ℚ) + 0.5) * (w / 6) := by rw [hpos]
    have hy : s.position.y = ((gy : ℚ) + 0.5) * (h / 6) := by rw [hpos]
    have hxw : s.position.x / w = ((gx : ℚ) + 0.5) / 6 := by
      rw [hx]
      field_simp
      ring
    have hyh : s.position.y / h = ((gy : ℚ) + 0.5) / 6 := by
      rw [hy]
      field_simp
      ring
    have hgx5 : (gx : ℚ) ≤ 5 := by exact_mod_cast Nat.lt_succ_iff.mp hgx
    have hgy5 : (gy : ℚ) ≤ 5 := by exact_mod_cast Nat.lt_succ_iff.mp hgy
    have hgx0 : (0 : ℚ) ≤ (gx : ℚ) := Nat.cast_nonneg gx
    have hgy0 : (0 : ℚ) ≤ (gy : ℚ) := Nat.cast_nonneg gy
    rw [hxw, hyh]
    refine ⟨by positivity, ?_, by positivity, ?_⟩
    · rw [div_le_one (by norm_num : (0 : ℚ) < 6)]
      linarith
    · rw [div_le_one (by norm_num : (0 : ℚ) < 6)]
      linarith
  have hne : gridSamples ctx w h ≠ [] := by
    intro hnil
    have h36 := gridSamples_length ctx w h
    rw [hnil] at h36
    exact absurd h36 (by norm_num)
  obtain ⟨m1, m2, m3, m4⟩ := bestPair_spec (gridSamples ctx w h) ⟨⟨0, 0, 0⟩, ⟨0, 0⟩, 1⟩ hne
  refine ⟨hcolors, by rw [hcolors]; exact gridSamples_length ctx w h, ?_⟩
  refine ⟨(bestPair ((gridSamples ctx w h).getD 0 ⟨⟨0, 0, 0⟩, ⟨0, 0⟩, 1⟩)
      (upperPairs (gridSamples ctx w h))).2.1,
    (bestPair ((gridSamples ctx w h).getD 0 ⟨⟨0, 0, 0⟩, ⟨0, 0⟩, 1⟩)
      (upperPairs (gridSamples ctx w h))).2.2,
    by rw [hcolors]; exact m1, by rw [hcolors]; exact m2,
    by rw [hcolors]; exact m4, m3,
    by simp only [analyzeBaseGradient], by simp only [analyzeBaseGradient],
    by simp only [analyzeBaseGradient], by simp only [analyzeBaseGradient],
    (hbounds _ m1).1, (hbounds _ m1).2.1, (hbounds _ m1).2.2.1, (hbounds _ m1).2.2.2,
    (hbounds _ m2).1, (hbounds _ m2).2.1, (hbounds _ m2).2.2.1, (hbounds _ m2).2.2.2⟩

/-- A constant mid-gray pixel source (a uniform image). -/
def constCtx : Ctx := fun _ _ => ⟨128, 128, 128⟩

unseal Rat.add Rat.mul Rat.sub Rat.inv Rat.ofScientific in
/-- Witness for C9: the base-gradient contract instantiated on a concrete
uniform 6x6 image. -/
theorem analyzeBaseGradient_spec_witness :
    (0 : ℚ) < 6 ∧ (analyzeBaseGradient constCtx 6 6).colors.length = 36 :=
  ⟨by norm_num, (analyzeBaseGradient_spec constCtx 6 6 (by norm_num) (by norm_num)).2.1⟩

-- ============ Delaunay triangulation (Bowyer-Watson) ============

/-- Source `Delaunay.inCircumcircle`: the strict, orientation-corrected incircle
determinant test used by the insertion loop. -/
def inCircumcircle (p a b c : P2) : Bool :=
  let ax := a.x - p.x
  let ay := a.y - p.y
  let bx := b.x - p.x
  let by_ := b.y - p.y
  let cx := c.x - p.x
  let cy := c.y - p.y
  let det := (ax * ax + ay * ay) * (bx * cy - cx * by_) -
    (bx * bx + by_ * by_) * (ax * cy - cx * ay) +
    (cx * cx + cy * cy) * (ax * by_ - bx * ay)
  let ori := (a.x - c.x) * (b.y - c.y) - (a.y - c.y) * (b.x - c.x)
  if 0 < ori then 0 < det else det < 0

/-- The three directed edges `[t0 t1], [t1 t2], [t2 t0]` of an index
triangle. -/
def triIdxEdges (t : ℕ × ℕ × ℕ) : List (ℕ × ℕ) :=
  [(t.1, t.2.1), (t.2.1, t.2.2), (t.2.2, t.1)]

/-- Whether two directed edges coincide up to direction. -/
def sameEdge (e oe : ℕ × ℕ) : Bool :=
  (e.1 = oe.1 ∧ e.2 = oe.2) ∨ (e.1 = oe.2 ∧ e.2 = oe.1)

/-- One insertion step of `Delaunay.run` for point index `i`: collect the
triangles whose circumcircle strictly contains the point, keep the cavity
boundary edges (those not shared with a second bad triangle), remove the
bad triangles and re-triangulate the cavity from the new point.
`bad` holds positions into the current triangle list, mirroring the
reference comparisons `t === o` and `bad.includes(t)` of the source (the
working array never holds two views of one triangle). -/
def delaunayInsert (at_ : ℕ → P2) (p : P2) (i : ℕ) (tris : List (ℕ × ℕ × ℕ)) :
    List (ℕ × ℕ × ℕ) :=
  let isBad : (ℕ × ℕ × ℕ) → Bool := fun t =>
    inCircumcircle p (at_ t.1) (at_ t.2.1) (at_ t.2.2)
  let bad := tris.filter isBad
  let poly := bad.enum.flatMap fun ti =>
    (triIdxEdges ti.2).filter fun e =>
      !(bad.enum.any fun oi =>
        oi.1 ≠ ti.1 && (triIdxEdges oi.2).any fun oe => sameEdge e oe)
  let kept := tris.filter fun t => !(isBad t)
  kept ++ poly.map fun e => (e.1, e.2, i)

/-- Source `Delaunay.run` (the constructor work of `class Delaunay`): bounding
box, the enclosing super-triangle at indices `n, n+1, n+2`, one insertion
per input point in input order, and the final discard of every triangle
referencing a super-triangle vertex.  The source folds the bounding box
from `±Infinity`, which for a nonempty list equals folding from the first
point. -/
def delaunayTriangles (pts : List P2) : List (ℕ × ℕ × ℕ) :=
  let n := pts.length
  if n < 3 then []
  else
    let p0 := pts.getD 0 ⟨0, 0⟩
    let minX := pts.foldl (fun m p => min m p.x) p0.x
    let minY := pts.foldl (fun m p => min m p.y) p0.y
    let maxX := pts.foldl (fun m p => max m p.x) p0.x
    let maxY := pts.foldl (fun m p => max m p.y) p0.y
    let dx := maxX - minX
    let dy := maxY - minY
    let d := max dx dy
    let mx := (minX + maxX) / 2
    let my := (minY + maxY) / 2
    let superTri : List P2 := [⟨mx - 20 * d, my - d⟩, ⟨mx, my + 20 * d⟩, ⟨mx + 20 * d, my - d⟩]
    let all := pts ++ superTri
    let at_ : ℕ → P2 := fun k => all.getD k ⟨0, 0⟩
    let inserted := (List.range n).foldl
      (fun tris i => delaunayInsert at_ (pts.getD i ⟨0, 0⟩) i tris)
      [(n, n + 1, n + 2)]
    inserted.filter fun t => t.1 < n ∧ t.2.1 < n ∧ t.2.2 < n

/-- Source `Delaunay.triangleIndices`: the surviving index triples, flattened. -/
def triangleIndices (pts : List P2) : List ℕ :=
  (delaunayTriangles pts).flatMap fun t => [t.1, t.2.1, t.2.2]

/-- C7: every vertex index emitted by the triangulation refers to an
original input point (it is below the input length, so indexing the input
array with it is in bounds); the super-triangle vertices never appear. -/
theorem triangleIndices_inBounds (pts : List P2) (j : ℕ) (hj : j ∈ triangleIndices pts) :
    j < pts.length := by
  unfold triangleIndices at hj
  rw [List.mem_flatMap] at hj
  obtain ⟨t, ht, hjt⟩ := hj
  unfold delaunayTriangles at ht
  by_cases hn : pts.length < 3
  · rw [if_pos hn] at ht
    cases ht
  · rw [if_neg hn] at ht
    have hfilter := (List.mem_filter.mp ht).2
    have hprop : t.1 < pts.length ∧ t.2.1 < pts.length ∧ t.2.2 < pts.length := by
      simpa using of_decide_eq_true hfilter
    have hjt3 : j = t.1 ∨ j = t.2.1 ∨ j = t.2.2 := by simpa using hjt
    rcases hjt3 with hj1 | hj2 | hj3
    · rw [hj1]; exact hprop.1
    · rw [hj2]; exact hprop.2.1
    · rw [hj3]; exact hprop.2.2

unseal Rat.add Rat.mul Rat.sub Rat.inv Rat.ofScientific in
/-- Witness for C7 on a concrete three-point set (whose triangulation is
the single triangle `(1, 0, 2)`). -/
theorem triangleIndices_inBounds_witness :
    (1 ∈ triangleIndices [⟨0, 0⟩, ⟨4, 0⟩, ⟨0, 4⟩]) ∧
    1 < ([⟨0, 0⟩, ⟨4, 0⟩, ⟨0, 4⟩] : List P2).length :=
  ⟨by decide, triangleIndices_inBounds [⟨0, 0⟩, ⟨4, 0⟩, ⟨0, 4⟩] 1 (by decide)⟩

-- ============ Triangulation pipeline ============

/-- The color sampled for a triangulation vertex: `sampleColor` at the
clamped position (the string formatting and re-parsing of the source is
the identity on the sampled channels). -/
def sampleColorAt (ctx : Ctx) (w h : ℚ) (p : P2) : RGB :=
  sampleRGB ctx (clamp p.x 0 (w - 1)) (clamp p.y 0 (h - 1))

/-- One output triangle of `triangulate`: colored vertices, centroid and
absolute area (the `colorVariance` field of the source is omitted, see
`Triangle`). -/
def mkTriangle (ctx : Ctx) (w h : ℚ) (p0 p1 p2 : P2) : Triangle :=
  { p0 := ⟨p0.x, p0.y, sampleColorAt ctx w h p0⟩
    p1 := ⟨p1.x, p1.y, sampleColorAt ctx w h p1⟩
    p2 := ⟨p2.x, p2.y, sampleColorAt ctx w h p2⟩
    centroid := ⟨(p0.x + p1.x + p2.x) / 3, (p0.y + p1.y + p2.y) / 3⟩
    area := |(p1.x - p0.x) * (p2.y - p0.y) - (p2.x - p0.x) * (p1.y - p0.y)| / 2 }

/-- Source `triangulate`: Delaunay indices, one attributed triangle per index
triple (the source walks the flat index list in steps of 3), then
micro-triangle culling. -/
def triangulate (ctx : Ctx) (pts : List P2) (w h : ℚ) : List Triangle :=
  let idx := triangleIndices pts
  let result := (List.range (idx.length / 3)).map fun k =>
    mkTriangle ctx w h (pts.getD (idx.getD (3 * k) 0) ⟨0, 0⟩)
      (pts.getD (idx.getD (3 * k + 1) 0) ⟨0, 0⟩)
      (pts.getD (idx.getD (3 * k + 2) 0) ⟨0, 0⟩)
  filterSmallTriangles result

/-- C8: a point set with fewer than 3 points triangulates to the empty
triangle list (both the raw index triples and the full `triangulate`
pipeline are empty), with no failure: the functions are total. -/
theorem triangulate_small (ctx : Ctx) (pts : List P2) (w h : ℚ) (hn : pts.length < 3) :
    triangulate ctx pts w h = [] ∧ delaunayTriangles pts = [] := by
  have hd : delaunayTriangles pts = [] := by
    unfold delaunayTriangles
    rw [if_pos hn]
  have hidx : triangleIndices pts = [] := by
    unfold triangleIndices
    rw [hd]
    rfl
  refine ⟨?_, hd⟩
  unfold triangulate
  rw [hidx]
  rfl

/-- Witness for C8 on a concrete two-point set. -/
theorem triangulate_small_witness :
    ([⟨0, 0⟩, ⟨1, 1⟩] : List P2).length < 3 ∧
    triangulate constCtx [⟨0, 0⟩, ⟨1, 1⟩] 10 10 = [] :=
  ⟨by decide, (triangulate_small constCtx [⟨0, 0⟩, ⟨1, 1⟩] 10 10 (by decide)).1⟩

-- ============ The Delaunay property (claim C1) ============

/-- Strict interior of the circumcircle of `(a, b, c)`: the
orientation-corrected incircle determinant is strictly positive (a
degenerate triangle has no circumcircle and no interior). -/
def strictlyInCircum (q a b c : P2) : Bool :=
  let ax := a.x - q.x
  let ay := a.y - q.y
  let bx := b.x - q.x
  let by_ := b.y - q.y
  let cx := c.x - q.x
  let cy := c.y - q.y
  let det := (ax * ax + ay * ay) * (bx * cy - cx * by_) -
    (bx * bx + by_ * by_) * (ax * cy - cx * ay) +
    (cx * cx + cy * cy) * (ax * by_ - bx * ay)
  let ori := (a.x - c.x) * (b.y - c.y) - (a.y - c.y) * (b.x - c.x)
  (0 < ori && 0 < det) || (ori < 0 && det < 0)

/-- The empty-circumcircle property of the triangulation output for one
point set: no input point lies strictly inside the circumcircle of any
produced triangle unless it coincides with one of its vertices. -/
def delaunayProperty (pts : List P2) : Bool :=
  (delaunayTriangles pts).all fun t =>
    pts.all fun q =>
      (q = pts.getD t.1 ⟨0, 0⟩ || q = pts.getD t.2.1 ⟨0, 0⟩ || q = pts.getD t.2.2 ⟨0, 0⟩) ||
      !(strictlyInCircum q (pts.getD t.1 ⟨0, 0⟩) (pts.getD t.2.1 ⟨0, 0⟩)
          (pts.getD t.2.2 ⟨0, 0⟩))

unseal Rat.add Rat.mul Rat.sub Rat.inv Rat.ofScientific in
/-- The empty-circumcircle property holds on a concrete cocircular
configuration (a square plus its center, exercising the degenerate
cocircular case). -/
theorem delaunayProperty_square_center :
    delaunayProperty [⟨0, 0⟩, ⟨4, 0⟩, ⟨4, 4⟩, ⟨0, 4⟩, ⟨2, 2⟩] = true := by decide

-- ============ Adaptive Poisson disk sampling ============

/-- The double-precision value of the `Math.SQRT2` constant used for the
grid cell size. -/
def MathSQRT2 : ℚ := 6369051672525773 / 4503599627370496

/-- The inputs of `adaptivePoissonSampling`.  Modelling of the two
non-rational ingredients:
* `tape` is the stream of `Math.random()` draws in draw order (the
  sampler is intentionally stochastic, spec section 5; a run of the
  embedding for one tape is one possible run of the source);
* `trig u` stands for `(cos(u * 2 * PI), sin(u * 2 * PI))`, the unit
  offset direction the source derives from the angle draw `u`;
* `lv x y` stands for `regionVariance(ctx, x, y, baseMinDist, w, h)`, the
  local variance probe of the PixelSampler collaborator (spec section
  4.1), whose value is a mean of Euclidean distances; `regionVarianceR`
  below is its real-valued embedding, and on a constant image it is 0 for
  every direction table (`regionVarianceR_const`). -/
structure PCfg where
  tape : ℕ → ℚ
  trig : ℚ → ℚ × ℚ
  lv : ℚ → ℚ → ℚ
  w : ℚ
  h : ℚ
  baseMinDist : ℚ
  adaptiveSensitivity : ℚ
  minShapeScale : ℚ
  maxAttempts : ℕ

/-- Source `cell = baseMinDist / Math.SQRT2`. -/
def PCfg.cell (cfg : PCfg) : ℚ := cfg.baseMinDist / MathSQRT2

/-- Source `gw = Math.ceil(w / cell)`. -/
def PCfg.gw (cfg : PCfg) : ℤ := ⌈cfg.w / cfg.cell⌉

/-- Source `gh = Math.ceil(h / cell)`. -/
def PCfg.gh (cfg : PCfg) : ℤ := ⌈cfg.h / cfg.cell⌉

/-- Source `localDist`: the local minimum spacing
`baseMinDist * max(0.35, 1 - (variance / 255) * adaptiveSensitivity) *
minShapeScale` (this is the claim's `localSpacing`). -/
def localDist (cfg : PCfg) (x y : ℚ) : ℚ :=
  let v := cfg.lv x y
  let factor := max 0.35 (1 - v / 255 * cfg.adaptiveSensitivity)
  cfg.baseMinDist * factor * cfg.minShapeScale

/-- The sampler state: accepted points, the active list, the spatial
grid (one remembered point index per cell, as in the source, where
`grid[gx][gy] = idx` overwrites any previous occupant), and the number of
random draws consumed so far. -/
structure PState where
  pts : List P2
  active : List ℕ
  grid : ℤ → ℤ → Option ℕ
  k : ℕ

/-- The integers from `lo` to `hi` inclusive (a `for` loop's index
range). -/
def intRange (lo hi : ℤ) : List ℤ :=
  (List.range (hi - lo + 1).toNat).map fun j => lo + (j : ℤ)

/-- Source `tooClose`: scan the grid cells within `ceil(md / cell) + 1` of the
candidate's cell (clamped to the grid) for a remembered point at squared
distance below `md * md`. -/
def tooClose (cfg : PCfg) (st : PState) (x y md : ℚ) : Bool :=
  let gx := ⌊x / cfg.cell⌋
  let gy := ⌊y / cfg.cell⌋
  let r := ⌈md / cfg.cell⌉ + 1
  (intRange (max 0 (gx - r)) (min (cfg.gw - 1) (gx + r))).any fun i =>
    (intRange (max 0 (gy - r)) (min (cfg.gh - 1) (gy + r))).any fun j =>
      match st.grid i j with
      | none => false
      | some idx =>
        let q := st.pts.getD idx ⟨0, 0⟩
        decide ((q.x - x) * (q.x - x) + (q.y - y) * (q.y - y) < md * md)

/-- Source `addPoint`: append the point, mark it active, and store its index in
its grid cell when that cell is within the grid bounds (overwriting the
cell's previous occupant). -/
def addPoint (cfg : PCfg) (st : PState) (x y : ℚ) : PState :=
  let idx := st.pts.length
  let gx := ⌊x / cfg.cell⌋
  let gy := ⌊y / cfg.cell⌋
  { pts := st.pts ++ [⟨x, y⟩]
    active := st.active ++ [idx]
    grid := if 0 ≤ gx ∧ gx < cfg.gw ∧ 0 ≤ gy ∧ gy < cfg.gh
      then fun i j => if i = gx ∧ j = gy then some idx else st.grid i j
      else st.grid
    k := st.k }

/-- The `for (a = 0; a < maxAttempts; a++)` candidate loop around one
active point: draw an angle and a distance in `[localDist, 2*localDist)`,
and accept the first in-bounds candidate that is not too close to a
remembered point at the candidate's own local spacing. -/
def attempts (cfg : PCfg) (p : P2) (ld : ℚ) : ℕ → PState → PState × Bool
  | 0, st => (st, false)
  | a + 1, st =>
    let u1 := cfg.tape st.k
    let u2 := cfg.tape (st.k + 1)
    let st1 : PState := { st with k := st.k + 2 }
    let cs := cfg.trig u1
    let dist := ld + u2 * ld
    let nx := p.x + cs.1 * dist
    let ny := p.y + cs.2 * dist
    if 0 ≤ nx ∧ nx < cfg.w ∧ 0 ≤ ny ∧ ny < cfg.h then
      if tooClose cfg st1 nx ny (localDist cfg nx ny) then attempts cfg p ld a st1
      else (addPoint cfg st1 nx ny, true)
    else attempts cfg p ld a st1

/-- One iteration of the `while (active.length)` loop: pick a random
active point, run the candidate attempts, and drop the point from the
active list if no candidate was accepted.  The identity on a state with an
empty active list. -/
def pStep (cfg : PCfg) (st : PState) : PState :=
  match st.active with
  | [] => st
  | _ :: _ =>
    let u := cfg.tape st.k
    let st1 : PState := { st with k := st.k + 1 }
    let ri := (⌊u * (st.active.length : ℚ)⌋).toNat
    let pi := st.active.getD ri 0
    let p := st.pts.getD pi ⟨0, 0⟩
    let ld := localDist cfg p.x p.y
    let res := attempts cfg p ld cfg.maxAttempts st1
    if res.2 then res.1 else { res.1 with active := res.1.active.eraseIdx ri }

/-- The initial state: `addPoint(w / 2, h / 2)` on the empty state. -/
def pInit (cfg : PCfg) : PState :=
  addPoint cfg ⟨[], [], fun _ _ => none, 0⟩ (cfg.w / 2) (cfg.h / 2)

/-- Source `adaptivePoissonSampling`, run for `fuel` iterations of the while
loop.  A run whose final `active` list is empty has terminated: further
iterations are the identity, so its `pts` are exactly the points the
source returns for the same draw stream. -/
def adaptivePoissonSampling (cfg : PCfg) (fuel : ℕ) : PState :=
  (pStep cfg)^[fuel] (pInit cfg)

/-- Clamp over the reals (for the real-valued variance probe). -/
noncomputable def clampR (v lo hi : ℝ) : ℝ := max lo (min hi v)

/-- Point sample at floored real coordinates. -/
noncomputable def sampleRGBR (ctx : Ctx) (x y : ℝ) : RGB := ctx ⌊x⌋ ⌊y⌋

/-- Source `regionVariance`, embedded over the reals: the mean Euclidean color
distance from the center sample to 8 samples on a circle of the given
radius; `dirs i` stands for `(cos(i / 8 * 2 * PI), sin(i / 8 * 2 * PI))`. -/
noncomputable def regionVarianceR (ctx : Ctx) (dirs : ℕ → ℝ × ℝ)
    (x y radius w h : ℚ) : ℝ :=
  let center := sampleRGBR ctx (clampR (x : ℝ) 0 ((w : ℝ) - 1)) (clampR (y : ℝ) 0 ((h : ℝ) - 1))
  (((List.range 8).map fun i =>
    Real.sqrt ((colorDistSq
      (sampleRGBR ctx (clampR ((x : ℝ) + (dirs i).1 * (radius : ℝ)) 0 ((w : ℝ) - 1))
        (clampR ((y : ℝ) + (dirs i).2 * (radius : ℝ)) 0 ((h : ℝ) - 1)))
      center : ℤ) : ℝ)).sum) / 8

/-- On a constant image the local variance probe is 0, whatever the
direction table: every sample equals the center, every distance is
`sqrt 0`.  This justifies instantiating the sampler's `lv` with the zero
function for a uniform image. -/
theorem regionVarianceR_const (c : RGB) (dirs : ℕ → ℝ × ℝ) (x y radius w h : ℚ) :
    regionVarianceR (fun _ _ => c) dirs x y radius w h = 0 := by
  unfold regionVarianceR sampleRGBR
  have hz : ∀ i : ℕ, i ∈ List.range 8 →
      Real.sqrt ((colorDistSq c c : ℤ) : ℝ) = (0 : ℝ) := by
    intro i _
    have h0 : colorDistSq c c = 0 := by simp [colorDistSq]
    rw [h0]
    simp
  simp [colorDistSq]

/-- The `(cos, sin)` values of the three angle draws the violation tape
uses: `u = 0` gives `(1, 0)`, `u = 1/4` gives `(0, 1)`, `u = 1/2` gives
`(-1, 0)` (exact values of `(cos(2*PI*u), sin(2*PI*u))` there). -/
def c3trig : ℚ → ℚ × ℚ := fun u =>
  if u = 0 then (1, 0) else if u = 1/4 then (0, 1) else if u = 1/2 then (-1, 0) else (1, 0)

/-- The draw tape of the violation run: 18 iterations that march a chain
of accepted points from the center seed `(5, 5)` upward in steps of 0.5
(each acceptance followed by the retirement of its parent, whose one
candidate coincides with the just-accepted child), then one acceptance to
the right at `(5.5, 9.5)` — which overwrites the grid cell remembering
`(5, 9.5)` — then one acceptance at `(4.98, 9.5)`, only 0.02 away from the
now-forgotten `(5, 9.5)`, then three iterations whose candidates fall
outside the image so that every remaining active point retires and the
loop terminates.  (The same trace with the source's default
`maxAttempts = 30`, padding each failing iteration to 30 identical
attempts, reaches the identical final point list; `maxAttempts = 1` is
used because the kernel must replay the whole run.) -/
def c3tapeList : List ℚ :=
  (List.replicate 18 ([0, 1/4, 0] : List ℚ)).flatten ++ [0, 0, 0] ++ [1/2, 1/2, 1/25] ++
    (List.replicate 3 ([0, 1/4, 0] : List ℚ)).flatten

/-- The tape as a stream (0 after the end; the run consumes exactly the
69 listed draws). -/
def c3tape : ℕ → ℚ := fun n => c3tapeList.getD n 0

/-- The violation configuration: a uniform 10x10 image (variance probe 0),
`baseMinDist = 5`, `adaptiveSensitivity = 0.25`, `minShapeScale = 0.1`
(so the local spacing is 0.5 everywhere, well below the grid cell size
`5 / sqrt 2`), and `maxAttempts = 1` (an explicit parameter of the source
function). -/
def c3cfg : PCfg :=
  { tape := c3tape, trig := c3trig, lv := fun _ _ => 0, w := 10, h := 10,
    baseMinDist := 5, adaptiveSensitivity := 1/4, minShapeScale := 1/10, maxAttempts := 1 }

unseal Rat.add Rat.mul Rat.sub Rat.inv Rat.ofScientific in
/-- C3 refutation: a complete run of `adaptivePoissonSampling` (the active
list is empty after 23 loop iterations, so the run has terminated and
`pts` is the source's return value for this draw stream) accepts the two
distinct points `(5, 9.5)` (index 9) and `(4.98, 9.5)` (index 11) whose
distance 0.02 is far below `min(localSpacing(a), localSpacing(b)) = 0.5`:
the single-occupancy grid forgot `(5, 9.5)` when `(5.5, 9.5)` landed in
the same cell, so the rejection test never saw it. -/
theorem adaptivePoissonSampling_spacing_violation :
    (adaptivePoissonSampling c3cfg 23).active = [] ∧
    (adaptivePoissonSampling c3cfg 23).pts.getD 9 ⟨0, 0⟩ = ⟨5, 19/2⟩ ∧
    (adaptivePoissonSampling c3cfg 23).pts.getD 11 ⟨0, 0⟩ = ⟨249/50, 19/2⟩ ∧
    12 ≤ (adaptivePoissonSampling c3cfg 23).pts.length ∧
    localDist c3cfg 5 (19/2) = 1/2 ∧
    localDist c3cfg (249/50) (19/2) = 1/2 ∧
    ((5 : ℚ) - 249/50) * ((5 : ℚ) - 249/50) + ((19 : ℚ)/2 - 19/2) * ((19 : ℚ)/2 - 19/2) <
      min (localDist c3cfg 5 (19/2)) (localDist c3cfg (249/50) (19/2)) *
        min (localDist c3cfg 5 (19/2)) (localDist c3cfg (249/50) (19/2)) := by
  decide

end MeshGradient
